import Mathlib

/-!
# Verification of the yana provider abstraction and agent control loop

This file gives a shallow embedding, in Lean 4, of the core logic of the
repository: the message normalizer (`src/providers/normalize.ts`), the HTTP
retry / error classifier (`src/providers/http.ts`), the OpenAI-style stream
tool-call assembly (`src/providers/adapters/openai.ts`), the Anthropic
message mapping (the `AnthropicProvider` shipped with
`src/providers/adapters/openrouter.ts`), the session store
(`src/agent/session.ts`) and the agent loop (`src/agent/loop.ts`), together
with theorems settling the specification claims about them.

JavaScript runtime values that flow through these functions are modelled by
the inductive type `Json` below (JSON-able values; `undefined` is identified
with `null`, and numbers are restricted to integers, which covers every
numeric value the embedded code paths construct or inspect).
-/

/-- JSON-able JavaScript values.  Numbers are modelled as integers: the
embedded code never constructs or branches on fractional numbers. -/
inductive Json where
  | null : Json
  | bool (b : Bool) : Json
  | num (n : Int) : Json
  | str (s : String) : Json
  | arr (items : List Json) : Json
  | obj (fields : List (String × Json)) : Json
deriving Repr

namespace Json

/-- JavaScript `typeof v === "object"` (true for objects, arrays and `null`). -/
def typeofObject : Json → Bool
  | .null => true
  | .arr _ => true
  | .obj _ => true
  | _ => false

/-- JavaScript truthiness of a value. -/
def truthy : Json → Bool
  | .null => false
  | .bool b => b
  | .num n => n ≠ 0
  | .str s => s ≠ ""
  | .arr _ => true
  | .obj _ => true

end Json

/-! ## A model of `JSON.parse`

A total, fuel-indexed recursive-descent parser for the JSON fragment the
repository exercises (null, booleans, integer numbers, strings with the
usual escapes, arrays, objects).  `JSON.parse` failures are represented by
`none`. -/

/-- The `{` character, kept as a named constant. -/
def lbraceChar : Char := Char.ofNat 123

/-- The `}` character, kept as a named constant. -/
def rbraceChar : Char := Char.ofNat 125

def isJsonWs (c : Char) : Bool :=
  c = ' ' ∨ c = '\t' ∨ c = '\n' ∨ c = '\r'

def skipWs : List Char → List Char
  | [] => []
  | c :: rest => if isJsonWs c then skipWs rest else c :: rest

/-- The decoded character for a single-character JSON escape sequence. -/
def escapeCode (e : Char) : Option Char :=
  if e = '"' then some '"'
  else if e = '\\' then some '\\'
  else if e = '/' then some '/'
  else if e = 'n' then some '\n'
  else if e = 't' then some '\t'
  else if e = 'r' then some '\r'
  else if e = 'b' then some (Char.ofNat 8)
  else if e = 'f' then some (Char.ofNat 12)
  else none

/-- The value of a hexadecimal digit. -/
def hexVal (h : Char) : Option Nat :=
  if h.isDigit then some (h.toNat - 48)
  else if 'a' ≤ h ∧ h ≤ 'f' then some (h.toNat - 87)
  else if 'A' ≤ h ∧ h ≤ 'F' then some (h.toNat - 55)
  else none

/-- Parse the body of a JSON string literal (after the opening quote),
handling the standard escape sequences. -/
def parseStringBody : List Char → Option (String × List Char)
  | [] => none
  | '"' :: rest => some ("", rest)
  | '\\' :: 'u' :: h1 :: h2 :: h3 :: h4 :: rest =>
    match hexVal h1, hexVal h2, hexVal h3, hexVal h4 with
    | some v1, some v2, some v3, some v4 =>
      (parseStringBody rest).map
        (fun p => (String.singleton (Char.ofNat (v1 * 4096 + v2 * 256 + v3 * 16 + v4)) ++ p.1, p.2))
    | _, _, _, _ => none
  | '\\' :: e :: rest =>
    match escapeCode e with
    | some ch => (parseStringBody rest).map (fun p => (String.singleton ch ++ p.1, p.2))
    | none => none
  | c :: rest =>
    (parseStringBody rest).map (fun p => (String.singleton c ++ p.1, p.2))

def digitsToNat : List Char → Nat → Nat
  | [], acc => acc
  | d :: rest, acc => digitsToNat rest (acc * 10 + (d.toNat - 48))

def takeDigits : List Char → (List Char × List Char)
  | [] => ([], [])
  | c :: rest =>
    if c.isDigit then
      let (ds, rem) := takeDigits rest
      (c :: ds, rem)
    else ([], c :: rest)

/-- Parse an integer JSON number (an optional minus sign and digits). -/
def parseNum (cs : List Char) : Option (Json × List Char) :=
  match cs with
  | '-' :: rest =>
    let (ds, rem) := takeDigits rest
    if ds.isEmpty then none
    else some (.num (-(Int.ofNat (digitsToNat ds 0))), rem)
  | _ =>
    let (ds, rem) := takeDigits cs
    if ds.isEmpty then none
    else some (.num (Int.ofNat (digitsToNat ds 0)), rem)

mutual

def parseVal : Nat → List Char → Option (Json × List Char)
  | 0, _ => none
  | fuel + 1, cs =>
    match skipWs cs with
    | [] => none
    | 'n' :: 'u' :: 'l' :: 'l' :: rest => some (.null, rest)
    | 't' :: 'r' :: 'u' :: 'e' :: rest => some (.bool true, rest)
    | 'f' :: 'a' :: 'l' :: 's' :: 'e' :: rest => some (.bool false, rest)
    | '"' :: rest => (parseStringBody rest).map (fun p => (.str p.1, p.2))
    | c :: rest =>
      if c = '[' then
        match skipWs rest with
        | ']' :: rest2 => some (.arr [], rest2)
        | rest2 => (parseElems fuel rest2).map (fun p => (.arr p.1, p.2))
      else if c = lbraceChar then
        match skipWs rest with
        | c2 :: rest2 =>
          if c2 = rbraceChar then some (.obj [], rest2)
          else (parseFields fuel (c2 :: rest2)).map (fun p => (.obj p.1, p.2))
        | [] => none
      else if c = '-' ∨ c.isDigit then parseNum (c :: rest)
      else none

def parseElems : Nat → List Char → Option (List Json × List Char)
  | 0, _ => none
  | fuel + 1, cs => do
    let (v, rest) ← parseVal fuel cs
    match skipWs rest with
    | ',' :: rest2 =>
      let (vs, rest3) ← parseElems fuel rest2
      pure (v :: vs, rest3)
    | ']' :: rest2 => pure ([v], rest2)
    | _ => none

def parseFields : Nat → List Char → Option (List (String × Json) × List Char)
  | 0, _ => none
  | fuel + 1, cs =>
    match skipWs cs with
    | '"' :: rest => do
      let (key, rest2) ← parseStringBody rest
      match skipWs rest2 with
      | ':' :: rest3 => do
        let (v, rest4) ← parseVal fuel rest3
        match skipWs rest4 with
        | ',' :: rest5 =>
          let (fs, rest6) ← parseFields fuel rest5
          pure ((key, v) :: fs, rest6)
        | c :: rest5 =>
          if c = rbraceChar then pure ([(key, v)], rest5) else none
        | [] => none
      | _ => none
    | _ => none

end

/-- Model of JavaScript `JSON.parse`: `none` models a thrown `SyntaxError`. -/
def jsonParse (s : String) : Option Json :=
  match parseVal (s.length + 1) s.data with
  | some (v, rest) => if (skipWs rest).isEmpty then some v else none
  | none => none

/-! ## A model of `JSON.stringify` (restricted to `Json` values) -/

/-- Escape a character for inclusion in a JSON string literal. -/
def escapeChar (c : Char) : String :=
  if c = '"' then "\\\""
  else if c = '\\' then "\\\\"
  else if c = '\n' then "\\n"
  else if c = '\t' then "\\t"
  else if c = '\r' then "\\r"
  else String.singleton c

def escapeString (s : String) : String :=
  String.join (s.data.map escapeChar)

def quoteString (s : String) : String :=
  "\"" ++ escapeString s ++ "\""

mutual

/-- Model of `JSON.stringify` on JSON-able values (on which it never throws). -/
def stringify : Json → String
  | .null => "null"
  | .bool true => "true"
  | .bool false => "false"
  | .num n => toString n
  | .str s => quoteString s
  | .arr items => "[" ++ stringifyItems items ++ "]"
  | .obj fields => "\x7b" ++ stringifyFields fields ++ "\x7d"

def stringifyItems : List Json → String
  | [] => ""
  | [x] => stringify x
  | x :: y :: rest => stringify x ++ "," ++ stringifyItems (y :: rest)

def stringifyFields : List (String × Json) → String
  | [] => ""
  | [(k, v)] => quoteString k ++ ":" ++ stringify v
  | (k, v) :: f :: rest =>
    quoteString k ++ ":" ++ stringify v ++ "," ++ stringifyFields (f :: rest)

end

/-! ## `src/providers/normalize.ts` -/

/-- Model of `safeParseArguments(raw)`:

```ts
try {
  const parsed = JSON.parse(raw);
  if (parsed && typeof parsed === "object") {
    return parsed as Record<string, unknown>;
  }
} catch { /* ignore */ }
return {} as Record<string, unknown>;
```
-/
def safeParseArguments (raw : String) : Json :=
  match jsonParse raw with
  | some parsed =>
    if parsed.truthy ∧ parsed.typeofObject then parsed else .obj []
  | none => .obj []

/-- First property lookup that the `extractText` object branch performs:
`content.text` when it is a string, else `content.content` when it is a
string, else `null`. -/
def lookupStringField (fields : List (String × Json)) (key : String) : Option String :=
  match fields.find? (fun p => p.1 = key) with
  | some (_, .str t) => some t
  | _ => none

mutual

/-- Model of `extractText(content)` from `src/providers/normalize.ts`. -/
def extractText : Json → Option String
  | .str s => some s
  | .num n => some (toString n)
  | .bool b => some (if b then "true" else "false")
  | .arr parts =>
    let ps := extractTextParts parts
    if ps.isEmpty then none else some (String.join ps)
  | .obj fields =>
    match lookupStringField fields "text" with
    | some t => some t
    | none => lookupStringField fields "content"
  | .null => none

/-- Model of `content.map(extractText).filter(Boolean)`: the extracted texts of the
parts, with `null` results and empty strings dropped. -/
def extractTextParts : List Json → List String
  | [] => []
  | p :: rest =>
    match extractText p with
    | some s => if s = "" then extractTextParts rest else s :: extractTextParts rest
    | none => extractTextParts rest

end

/-- Model of `normalizeContent(content)` from `src/providers/normalize.ts`.  The
`String(content)` fallback of the source is unreachable on JSON-able values
(`JSON.stringify` only throws on cyclic values or BigInt). -/
def normalizeContent (content : Json) : Option String :=
  match extractText content with
  | some extracted => some extracted
  | none =>
    match content with
    | .null => none
    | c => some (stringify c)

/-! ## `src/providers/http.ts` -/

inductive ProviderErrorCode where
  | auth | rate_limit | timeout | network | server | bad_request | unknown
deriving DecidableEq, Repr

/-- The `ProviderError` class of `src/providers/http.ts` (the `cause` field,
which only carries the original throwable for debugging, is not modelled). -/
structure ProviderError where
  provider : String
  code : ProviderErrorCode
  status : Option Nat := none
  retryable : Bool := false
  message : String
deriving DecidableEq, Repr

/-- The throwable values that reach `classifyProviderError`:
an already-classified `ProviderError`, a `DOMException` named
`"AbortError"`, a `TypeError`, or anything else (represented by the text
that `err instanceof Error ? err.message : String(err)` produces; this also
covers `DOMException`s with other names). -/
inductive JsError where
  | providerErr (pe : ProviderError)
  | abortDom
  | typeErr (message : String)
  | otherErr (text : String)
deriving DecidableEq, Repr

/-- Model of `classifyHttpStatusError(provider, status, details?)`.  The `details ?
...` truthiness test means an empty details string contributes no suffix. -/
def classifyHttpStatusError (provider : String) (status : Nat)
    (details : Option String) : ProviderError :=
  let suffix :=
    match details with
    | some d => if d = "" then "" else " " ++ d
    | none => ""
  if status = 401 ∨ status = 403 then
    ⟨provider, .auth, some status, false,
      provider ++ " authentication failed (" ++ toString status ++ ")." ++ suffix⟩
  else if status = 429 then
    ⟨provider, .rate_limit, some status, true,
      provider ++ " rate limited (" ++ toString status ++ ")." ++ suffix⟩
  else if 500 ≤ status then
    ⟨provider, .server, some status, true,
      provider ++ " server error (" ++ toString status ++ ")." ++ suffix⟩
  else if 400 ≤ status then
    ⟨provider, .bad_request, some status, false,
      provider ++ " request failed (" ++ toString status ++ ")." ++ suffix⟩
  else
    ⟨provider, .unknown, some status, false,
      provider ++ " request failed (" ++ toString status ++ ")." ++ suffix⟩

/-- Model of `classifyProviderError(provider, err)`. -/
def classifyProviderError (provider : String) (err : JsError) : ProviderError :=
  match err with
  | .providerErr pe => pe
  | .abortDom =>
    ⟨provider, .timeout, none, true, provider ++ " request timed out."⟩
  | .typeErr _ =>
    ⟨provider, .network, none, true, provider ++ " network error."⟩
  | .otherErr text =>
    ⟨provider, .unknown, none, false, provider ++ " request failed: " ++ text⟩

/-- Model of `computeBackoffMs(attempt, retryBaseDelayMs, retryMaxDelayMs)`.
`Math.floor(exp * 0.2)` on the natural-number delays the code computes is
floor division by five. -/
def computeBackoffMs (attempt retryBaseDelayMs retryMaxDelayMs : Nat) : Nat :=
  let exp := min retryMaxDelayMs (retryBaseDelayMs * 2 ^ (attempt - 1))
  let jitter := exp / 5
  exp + jitter

/-- The `while (true)` loop of `withRetry`, with the i-th invocation of the
operation modelled by `operation i` (1-indexed) and the loop guard
`attempt > maxRetries + 1` encoded by the structurally decreasing budget
`remaining = (maxRetries + 1) - curAttempt`, where `curAttempt` counts the
attempts already made.  The second component of the result is the total
number of attempts performed. -/
def withRetryGo {T : Type} (operation : Nat → Except JsError T)
    (provider : String) : (remaining curAttempt : Nat) → Except ProviderError T × Nat
  | 0, curAttempt =>
    match operation (curAttempt + 1) with
    | .ok v => (.ok v, curAttempt + 1)
    | .error err =>
      (.error (classifyProviderError provider err), curAttempt + 1)
  | r + 1, curAttempt =>
    match operation (curAttempt + 1) with
    | .ok v => (.ok v, curAttempt + 1)
    | .error err =>
      let providerError := classifyProviderError provider err
      if providerError.retryable then withRetryGo operation provider r (curAttempt + 1)
      else (.error providerError, curAttempt + 1)

/-- Model of `withRetry(operation, options)` (the `sleep(delayMs)` between attempts
affects only timing, not the returned value; `options.maxRetries ?? 2` is
taken as an explicit parameter). -/
def withRetry {T : Type} (operation : Nat → Except JsError T)
    (provider : String) (maxRetries : Nat) : Except ProviderError T :=
  (withRetryGo operation provider (maxRetries + 1) 0).1

/-- The number of times `withRetry` invokes the operation. -/
def withRetryAttempts {T : Type} (operation : Nat → Except JsError T)
    (provider : String) (maxRetries : Nat) : Nat :=
  (withRetryGo operation provider (maxRetries + 1) 0).2

/-- A concrete operation that fails on every attempt with a retryable
(HTTP 500, `server`) error. -/
def alwaysServerError : Nat → Except JsError Unit :=
  fun _ => .error (.providerErr ⟨"p", .server, some 500, true, "server error"⟩)

/-! ## `src/providers/adapters/openai.ts`: streaming tool-call assembly

The `stream` method keeps a `Map<number, {id, name, args}>` keyed by the
delta's numeric `index` and merges each `toolCallDelta` of each decoded
stream event into it; when the stream ends the accumulated `args` string of
each entry is parsed once by `safeParseArguments`.  `Map` insertion order
is modelled by an association list where setting an existing key replaces
in place and a new key is appended. -/

/-- The internal `ToolCall` shape of `src/providers/llm.ts`. -/
structure ToolCall where
  id : String
  name : String
  arguments : Json
deriving Repr

/-- One `toolCallDelta` of a decoded stream event: it has a numeric
`index` and may carry an `id`, a `function.name`, and/or a fragment
`function.arguments`. -/
structure ToolCallDelta where
  index : Nat
  id : Option String := none
  fnName : Option String := none
  fnArgs : Option String := none
deriving Repr

/-- The per-index accumulator entry `{id, name, args}`. -/
structure ToolCallState where
  id : String
  name : String
  args : String
deriving Repr

/-- Model of `Map.get(index)`. -/
def mapGet? : List (Nat × ToolCallState) → Nat → Option ToolCallState
  | [], _ => none
  | (k, v) :: rest, key => if k = key then some v else mapGet? rest key

/-- Model of `Map.set(index, v)`: replaces in place if the key exists (preserving
insertion order), otherwise appends. -/
def mapSet : List (Nat × ToolCallState) → Nat → ToolCallState → List (Nat × ToolCallState)
  | [], key, v => [(key, v)]
  | (k, v') :: rest, key, v =>
    if k = key then (key, v) :: rest else (k, v') :: mapSet rest key v

/-- Processing of one `toolCallDelta` (the body of the
`for (const toolCallDelta of delta.tool_calls)` loop): the existing entry
(or a fresh one seeded by `??`-coalescing) has its `id` and `name`
overwritten by truthy incoming values and its `args` extended by appending
a truthy incoming fragment, then is stored back under the same index. -/
def applyToolCallDelta (state : List (Nat × ToolCallState)) (d : ToolCallDelta) :
    List (Nat × ToolCallState) :=
  let existing :=
    match mapGet? state d.index with
    | some e => e
    | none =>
      { id := d.id.getD ("tool_" ++ toString d.index),
        name := d.fnName.getD "",
        args := "" }
  let e1 :=
    match d.id with
    | some i => if i = "" then existing else { existing with id := i }
    | none => existing
  let e2 :=
    match d.fnName with
    | some n => if n = "" then e1 else { e1 with name := n }
    | none => e1
  let e3 :=
    match d.fnArgs with
    | some a => if a = "" then e2 else { e2 with args := e2.args ++ a }
    | none => e2
  mapSet state d.index e3

/-- The accumulator state after a whole stream's tool-call deltas, in the
order the events delivered them. -/
def processToolCallDeltas (deltas : List ToolCallDelta) : List (Nat × ToolCallState) :=
  deltas.foldl applyToolCallDelta []

/-- End-of-stream assembly:
`Array.from(toolCallState.values()).map(call => ({id, name, arguments: safeParseArguments(call.args)}))` —
each accumulated argument string is parsed exactly here, once. -/
def finalizeToolCalls (state : List (Nat × ToolCallState)) : List ToolCall :=
  state.map (fun p => { id := p.2.id, name := p.2.name, arguments := safeParseArguments p.2.args })

/-- The four stream events of the C3 scenario for index 0: an `id`, then a
`name`, then two argument fragments. -/
def scenarioDeltas : List ToolCallDelta :=
  [ { index := 0, id := some "call_1" },
    { index := 0, fnName := some "get_weather" },
    { index := 0, fnArgs := some "\x7b\"city\":" },
    { index := 0, fnArgs := some "\"Paris\"\x7d" } ]

/-! ## `src/agent/session.ts`

`SessionMessage` timestamps only record wall-clock time and are not
modelled.  The on-disk `.jsonl` store is modelled as a map from session key
to the list of persisted messages (appending lines to the session file is
appending messages to that list). -/

structure SessionMessage where
  role : String
  content : Option String
deriving Repr, DecidableEq

structure Session where
  key : String
  messages : List SessionMessage
  lastSavedIndex : Nat
deriving Repr, DecidableEq

/-- Model of `Session.addMessage(role, content)`. -/
def Session.addMessage (s : Session) (role : String) (content : Option String) : Session :=
  { s with messages := s.messages ++ [{ role := role, content := content }] }

/-- Model of `Session.getUnsavedMessages()`. -/
def Session.getUnsavedMessages (s : Session) : List SessionMessage :=
  s.messages.drop s.lastSavedIndex

/-- Model of `Session.markSaved()`. -/
def Session.markSaved (s : Session) : Session :=
  { s with lastSavedIndex := s.messages.length }

/-- The persisted session files, keyed by session key. -/
def Store : Type := String → List SessionMessage

/-- Model of `SessionManager.save(session)`: appends exactly the unsaved messages to
the session's file (no-op when there are none) and marks them saved. -/
def saveSession (store : Store) (s : Session) : Store × Session :=
  let toSave := s.getUnsavedMessages
  if toSave.isEmpty then (store, s)
  else
    (fun k => if k = s.key then store k ++ toSave else store k, s.markSaved)

/-! ## `src/agent/loop.ts`

The embedding follows the current, event-emitting revision of `AgentLoop`
(the one whose `runOnceStream` takes `onEvent?` and wraps tool execution in
`try`/`catch`).  The provider is modelled by a pure function from the call
number and the current message list to the response (`chat`), or to the
list of stream chunks (`stream`); tool execution is modelled by
`execute : String → Json → Except String String`, where the error string
models the thrown value (`err instanceof Error ? err.message : String(err)`).
Provider calls themselves are modelled as non-throwing; a tool throw
propagates out of the loop as `Except.error`. -/

/-- The raw shape of one entry of an assistant message's `tool_calls`
array (and, more generally, of the `unknown` tool-call values that
`mapOpenAIToolCalls` in the Anthropic adapter accepts): an optional `id`,
an optional top-level `name`, optional `function.name` and
`function.arguments` strings, and an optional non-string `arguments`
value. -/
structure RawToolCall where
  id : Option String := none
  name : Option String := none
  fnName : Option String := none
  fnArgs : Option String := none
  argumentsVal : Option Json := none
deriving Repr

/-- One entry of the in-loop `messages` array
(`Array<Record<string, unknown>>`). -/
structure ChatMsg where
  role : String
  content : Json := .null
  tool_call_id : Option String := none
  name : Option String := none
  tool_calls : Option (List RawToolCall) := none
deriving Repr

/-- The internal `LLMResponse` of `src/providers/llm.ts` (token usage is
reporting-only and not consumed by the loop). -/
structure LLMResponse where
  content : Option String := none
  toolCalls : Option (List ToolCall) := none
  finishReason : String := "stop"
deriving Repr

/-- Model of `call.arguments ?? {}` (nullish coalescing). -/
def argumentsOrEmpty : Json → Json
  | .null => .obj []
  | v => v

/-- One entry of the `tool_calls` array the loop records on an assistant
message: `{id, type: "function", function: {name, arguments: JSON.stringify(call.arguments ?? {})}}`. -/
def rawFromToolCall (c : ToolCall) : RawToolCall :=
  { id := some c.id,
    fnName := some c.name,
    fnArgs := some (stringify (argumentsOrEmpty c.arguments)) }

/-- The assistant message recording tool-call intents in `runOnce`
(`content: response.content ?? null`). -/
def assistantToolMsg (content : Option String) (tcs : List ToolCall) : ChatMsg :=
  { role := "assistant",
    content := match content with | some c => .str c | none => .null,
    tool_calls := some (tcs.map rawFromToolCall) }

/-- The assistant message recording tool-call intents in `runOnceStream`
(`content: streamedContent || null`: the empty string is falsy). -/
def assistantToolMsgStream (streamed : String) (tcs : List ToolCall) : ChatMsg :=
  { role := "assistant",
    content := if streamed = "" then .null else .str streamed,
    tool_calls := some (tcs.map rawFromToolCall) }

/-- The tool-role result message appended after a successful tool call. -/
def toolMsg (tc : ToolCall) (result : String) : ChatMsg :=
  { role := "tool",
    content := .str result,
    tool_call_id := some tc.id,
    name := some tc.name }

/-- A history message passed back to the provider:
`{role: msg.role, content: msg.content}`. -/
def historyMsg (m : SessionMessage) : ChatMsg :=
  { role := m.role,
    content := match m.content with | some s => .str s | none => .null }

/-- The initial message list
`[{role:"system", ...}] ++ history ++ [{role:"user", content: userContent}]`. -/
def initialMessages (session : Session) (userContent : String) : List ChatMsg :=
  { role := "system", content := .str "You are a helpful assistant." } ::
    (session.messages.map historyMsg ++
      [{ role := "user", content := .str userContent }])

/-- Model of `private maxIterations = 4`. -/
def maxIterations : Nat := 4

/-- The `for (const toolCall of response.toolCalls)` loop of `runOnce`
(no `try`/`catch`: a throwing tool propagates). -/
def runToolCalls (execute : String → Json → Except String String) :
    List ToolCall → Except String (List ChatMsg)
  | [] => .ok []
  | tc :: rest =>
    match execute tc.name tc.arguments with
    | .ok result => (runToolCalls execute rest).map (fun ms => toolMsg tc result :: ms)
    | .error e => .error e

/-- The `while (iteration < this.maxIterations)` loop of `runOnce`,
structurally recursive on `remaining = maxIterations - iteration`; the
second component counts the provider `chat` calls performed.  The loop
result is `some finalContent` on a natural stop and `none` when the
iteration cap is reached (`finalContent` still `null`). -/
def runOnceGo (chat : Nat → List ChatMsg → LLMResponse)
    (execute : String → Json → Except String String) :
    (remaining : Nat) → List ChatMsg → Nat → Except String (Option String) × Nat
  | 0, _, calls => (.ok none, calls)
  | r + 1, msgs, calls =>
    let response := chat calls msgs
    match response.toolCalls with
    | some tcs =>
      if tcs.isEmpty then (.ok (some (response.content.getD "")), calls + 1)
      else
        match runToolCalls execute tcs with
        | .ok toolMsgs =>
          runOnceGo chat execute r
            (msgs ++ [assistantToolMsg response.content tcs] ++ toolMsgs) (calls + 1)
        | .error e => (.error e, calls + 1)
    | none => (.ok (some (response.content.getD "")), calls + 1)

/-- Model of `AgentLoop.runOnce(sessionKey, userContent)`: on completion, returns
`finalContent ?? ""`, appends the user and final assistant messages to the
session and saves it; a tool throw propagates before any of that. -/
def runOnce (chat : Nat → List ChatMsg → LLMResponse)
    (execute : String → Json → Except String String)
    (store : Store) (session : Session) (userContent : String) :
    Except String (String × Session × Store) :=
  match (runOnceGo chat execute maxIterations (initialMessages session userContent) 0).1 with
  | .error e => .error e
  | .ok finalContent =>
    let s1 := session.addMessage "user" (some userContent)
    let s2 := s1.addMessage "assistant" (some (finalContent.getD ""))
    let saved := saveSession store s2
    .ok (finalContent.getD "", saved.2, saved.1)

/-- The number of provider `chat` calls a `runOnce` invocation performs. -/
def runOnceCalls (chat : Nat → List ChatMsg → LLMResponse)
    (execute : String → Json → Except String String)
    (session : Session) (userContent : String) : Nat :=
  (runOnceGo chat execute maxIterations (initialMessages session userContent) 0).2

/-- A provider that answers every call with one tool call and no content,
and a tool executor that always succeeds with the empty result. -/
def loopingChat : Nat → List ChatMsg → LLMResponse :=
  fun _ _ =>
    { content := none,
      toolCalls := some [{ id := "t1", name := "noop", arguments := Json.obj [] }],
      finishReason := "tool_calls" }

def okExec : String → Json → Except String String := fun _ _ => .ok ""

def demoStore : Store := fun _ => []

def demoSession : Session := { key := "k", messages := [], lastSavedIndex := 0 }

/-- A provider that answers with plain content and no tool calls. -/
def helloChat : Nat → List ChatMsg → LLMResponse :=
  fun _ _ => { content := some "Hello", toolCalls := none, finishReason := "stop" }

/-! ## `AgentLoop.runOnceStream` (streaming variant, provider with `stream`)

The stream of chunks a provider call yields is modelled as the list
`stream i msgs`; `onDelta` only mirrors content chunks to the UI and is
not modelled separately; the `onEvent?` presentation events are collected
in an event log. -/

inductive AgentEvent where
  | status (message : String)
  | tool_call (name : String) (arguments : Json)
  | tool_result (name : String) (result : String)
  | tool_error (name : String) (error : String)
deriving Repr

/-- Draining the `for await` loop over the chunks: nonempty string content
is concatenated, and every chunk carrying a nonempty `toolCalls` list
overwrites the captured tool-call set. -/
def drainStream (chunks : List LLMResponse) : String × Option (List ToolCall) :=
  chunks.foldl
    (fun acc chunk =>
      let acc1 :=
        match chunk.content with
        | some c => if c = "" then acc else (acc.1 ++ c, acc.2)
        | none => acc
      match chunk.toolCalls with
      | some tcs => if tcs.isEmpty then acc1 else (acc1.1, some tcs)
      | none => acc1)
    ("", none)

/-- The `for (const toolCall of toolCalls)` execution loop of
`runOnceStream`: each successful call emits a `tool_result` event and
appends a tool-role message; a failure emits a `tool_error` event and
rethrows, so no message is appended for it and no later call runs.
Returns the appended messages, the emitted events, and the error if one
was thrown. -/
def execBatchStream (execute : String → Json → Except String String) :
    List ToolCall → List ChatMsg × List AgentEvent × Option String
  | [] => ([], [], none)
  | tc :: rest =>
    match execute tc.name tc.arguments with
    | .ok result =>
      let out := execBatchStream execute rest
      (toolMsg tc result :: out.1, .tool_result tc.name result :: out.2.1, out.2.2)
    | .error e => ([], [.tool_error tc.name e], some e)

/-- What the streaming `while` loop leaves behind: the loop outcome, the
in-memory message list, and the emitted events. -/
structure StreamLoopOut where
  outcome : Except String String
  messages : List ChatMsg
  events : List AgentEvent
deriving Repr

/-- The `while (iteration < this.maxIterations)` loop of `runOnceStream`
(provider-with-`stream` path), structurally recursive on the remaining
iteration budget.  Loop exhaustion leaves `finalContent = ""`. -/
def runOnceStreamGo (stream : Nat → List ChatMsg → List LLMResponse)
    (execute : String → Json → Except String String) :
    (remaining : Nat) → List ChatMsg → Nat → List AgentEvent → StreamLoopOut
  | 0, msgs, _, evs => ⟨.ok "", msgs, evs⟩
  | r + 1, msgs, calls, evs =>
    let evs1 := evs ++ [.status "thinking"]
    let drained := drainStream (stream calls msgs)
    match drained.2 with
    | some tcs =>
      if tcs.isEmpty then ⟨.ok drained.1, msgs, evs1⟩
      else
        let evs2 := evs1 ++ tcs.map (fun tc => AgentEvent.tool_call tc.name tc.arguments)
        let msgs2 := msgs ++ [assistantToolMsgStream drained.1 tcs]
        let batch := execBatchStream execute tcs
        match batch.2.2 with
        | none => runOnceStreamGo stream execute r (msgs2 ++ batch.1) (calls + 1) (evs2 ++ batch.2.1)
        | some e => ⟨.error e, msgs2 ++ batch.1, evs2 ++ batch.2.1⟩
    | none => ⟨.ok drained.1, msgs, evs1⟩

/-- The full observable outcome of one `runOnceStream` invocation. -/
structure StreamRunResult where
  outcome : Except String String
  session : Session
  store : Store
  messages : List ChatMsg
  events : List AgentEvent

/-- Model of `AgentLoop.runOnceStream(sessionKey, userContent, onDelta, onEvent?)`:
on completion the user and final assistant messages are appended to the
session and saved; a tool throw propagates first, leaving the session and
the store untouched. -/
def runOnceStream (stream : Nat → List ChatMsg → List LLMResponse)
    (execute : String → Json → Except String String)
    (store : Store) (session : Session) (userContent : String) : StreamRunResult :=
  let out := runOnceStreamGo stream execute maxIterations
    (initialMessages session userContent) 0 []
  match out.outcome with
  | .ok finalContent =>
    let s1 := session.addMessage "user" (some userContent)
    let s2 := s1.addMessage "assistant" (some finalContent)
    let saved := saveSession store s2
    ⟨.ok finalContent, saved.2, saved.1, out.messages, out.events⟩
  | .error e => ⟨.error e, session, store, out.messages, out.events⟩

/-- The result string the executor returned for a call (used to describe
the successful prefix of a batch). -/
def okResult (execute : String → Json → Except String String) (t : ToolCall) : String :=
  match execute t.name t.arguments with
  | .ok r => r
  | .error _ => ""

/-- A batch whose second call fails. -/
def goodCall : ToolCall := { id := "c1", name := "good", arguments := Json.obj [] }

def badCall : ToolCall := { id := "c2", name := "bad", arguments := Json.obj [] }

def neverCall : ToolCall := { id := "c3", name := "never", arguments := Json.obj [] }

def failExec : String → Json → Except String String :=
  fun nm _ => if nm = "bad" then .error "boom" else .ok "fine"

/-- A provider stream that requests the failing batch. -/
def failingStream : Nat → List ChatMsg → List LLMResponse :=
  fun _ _ =>
    [{ content := none,
       toolCalls := some [goodCall, badCall, neverCall],
       finishReason := "tool_calls" }]

/-! ## `mapMessages` of the Anthropic-style adapter
(`src/providers/adapters/openrouter.ts`, `AnthropicProvider`)

The Anthropic adapter translates the internal message list into the vendor
shape: system messages are collected into `systemParts` (joined by a blank
line into the single top-level `system` field), tool-role messages become
user-role messages holding one `tool_result` block, assistant messages
keep text and/or `tool_use` blocks, user messages keep their text, and any
other role is dropped. -/

inductive AContentBlock where
  | text (text : String)
  | tool_use (id : String) (name : String) (input : Json)
  | tool_result (tool_use_id : String) (content : String)
deriving Repr

/-- Model of `string | AnthropicContentBlock[]`. -/
inductive AContent where
  | str (s : String)
  | blocks (bs : List AContentBlock)
deriving Repr

structure AnthropicMessage where
  role : String
  content : AContent
deriving Repr

structure MappedToolCall where
  id : String
  name : String
  input : Json
deriving Repr

/-- Model of `mapOpenAIToolCalls(toolCalls)`: accepts the loosely-typed tool-call
entries of an assistant message (`none` models a non-array value). -/
def mapOpenAIToolCalls (toolCalls : Option (List RawToolCall)) : List MappedToolCall :=
  match toolCalls with
  | none => []
  | some calls =>
    calls.enum.map (fun p =>
      let index := p.1
      let raw := p.2
      let id := raw.id.getD ("tool_" ++ toString index)
      let name := ((raw.fnName).orElse (fun _ => raw.name)).getD ""
      let argsRaw :=
        match raw.fnArgs with
        | some s => s
        | none =>
          match raw.argumentsVal with
          | some (.str s) => s
          | _ => ""
      let args :=
        if argsRaw.length > 0 then safeParseArguments argsRaw
        else
          match raw.argumentsVal with
          | some v => if v.truthy ∧ v.typeofObject then v else Json.obj []
          | none => Json.obj []
      { id := id, name := name, input := args })

/-- The loop body of `mapMessages` (one input message folded into the
`(systemParts, out)` accumulator); the assistant branch of the source
tests `toolCalls.length > 0`, here expressed through `isEmpty`. -/
def mapMessagesStep (acc : List String × List AnthropicMessage) (msg : ChatMsg) :
    List String × List AnthropicMessage :=
  if msg.role = "system" then
    match normalizeContent msg.content with
    | some t => if t = "" then acc else (acc.1 ++ [t], acc.2)
    | none => acc
  else if msg.role = "tool" then
    let toolResult := (normalizeContent msg.content).getD ""
    let toolUseId := msg.tool_call_id.getD ""
    let nm := msg.name.getD ""
    let tid := if toolUseId ≠ "" then toolUseId
      else if nm ≠ "" then nm else "tool_result"
    (acc.1, acc.2 ++ [⟨"user", .blocks [.tool_result tid toolResult]⟩])
  else if msg.role = "assistant" then
    let toolCalls := mapOpenAIToolCalls msg.tool_calls
    let text := (normalizeContent msg.content).getD ""
    if toolCalls.isEmpty then (acc.1, acc.2 ++ [⟨"assistant", .str text⟩])
    else
      let blocks := (if text = "" then [] else [AContentBlock.text text]) ++
        toolCalls.map (fun c => AContentBlock.tool_use c.id c.name c.input)
      (acc.1, acc.2 ++ [⟨"assistant", .blocks blocks⟩])
  else if msg.role = "user" then
    (acc.1, acc.2 ++ [⟨"user", .str ((normalizeContent msg.content).getD "")⟩])
  else acc

/-- Model of `mapMessages(messages)`: the vendor message list plus the optional
top-level `system` field (`systemParts.join("\n\n")` when nonempty). -/
def mapMessages (messages : List ChatMsg) : Option String × List AnthropicMessage :=
  let acc := messages.foldl mapMessagesStep ([], [])
  (if acc.1.isEmpty then none else some (String.intercalate "\n\n" acc.1), acc.2)

/-- The contribution of one input message to `systemParts`: system-role
messages contribute their normalized content when it is truthy. -/
def systemPart (msg : ChatMsg) : Option String :=
  if msg.role = "system" then
    match normalizeContent msg.content with
    | some t => if t = "" then none else some t
    | none => none
  else none

/-- The vendor message one input message maps to (none: the message is
dropped from the list — system roles and unknown roles). -/
def mapMessagesOne (msg : ChatMsg) : Option AnthropicMessage :=
  if msg.role = "system" then none
  else if msg.role = "tool" then
    some ⟨"user", .blocks [.tool_result
      (if msg.tool_call_id.getD "" ≠ "" then msg.tool_call_id.getD ""
       else if msg.name.getD "" ≠ "" then msg.name.getD "" else "tool_result")
      ((normalizeContent msg.content).getD "")]⟩
  else if msg.role = "assistant" then
    if (mapOpenAIToolCalls msg.tool_calls).isEmpty then
      some ⟨"assistant", .str ((normalizeContent msg.content).getD "")⟩
    else
      some ⟨"assistant", .blocks
        ((if (normalizeContent msg.content).getD "" = "" then []
          else [AContentBlock.text ((normalizeContent msg.content).getD "")]) ++
          (mapOpenAIToolCalls msg.tool_calls).map
            (fun c => AContentBlock.tool_use c.id c.name c.input))⟩
  else if msg.role = "user" then
    some ⟨"user", .str ((normalizeContent msg.content).getD "")⟩
  else none

/-- A concrete tool-result message. -/
def toolInputMsg : ChatMsg :=
  { role := "tool", content := .str "file contents",
    tool_call_id := some "call_9", name := some "read_file" }

/-! ## Theorems -/

example : normalizeContent (.str "hi") = some "hi" := rfl

example : normalizeContent (.arr [.obj []]) = some "[\x7b\x7d]" := rfl

example : safeParseArguments "[1,2]" = .arr [.num 1, .num 2] := rfl

example : safeParseArguments "\x7b\"city\":\"Paris\"\x7d"
    = .obj [("city", .str "Paris")] := rfl

example : safeParseArguments "not json" = .obj [] := rfl

example : safeParseArguments "42" = .obj [] := rfl

example : safeParseArguments "null" = .obj [] := rfl

lemma withRetryGo_attempts_le {T : Type} (operation : Nat → Except JsError T)
    (provider : String) :
    ∀ remaining curAttempt,
      (withRetryGo operation provider remaining curAttempt).2 ≤ curAttempt + remaining + 1 := by
  intro remaining
  induction remaining with
  | zero =>
    intro cur
    cases h : operation (cur + 1) <;> simp [withRetryGo, h]
  | succ r ih =>
    intro cur
    cases h : operation (cur + 1) with
    | ok v => simp [withRetryGo, h]
    | error e =>
      cases hr : (classifyProviderError provider e).retryable with
      | true =>
        have := ih (cur + 1)
        simp [withRetryGo, h, hr]
        omega
      | false => simp [withRetryGo, h, hr]

lemma withRetryGo_mid {T : Type} (operation : Nat → Except JsError T)
    (provider : String) :
    ∀ remaining curAttempt n, curAttempt < n →
      n < (withRetryGo operation provider remaining curAttempt).2 →
      ∃ e, operation n = .error e ∧
        (classifyProviderError provider e).retryable = true := by
  intro remaining
  induction remaining with
  | zero =>
    intro cur n h1 h2
    exfalso
    cases h : operation (cur + 1) <;> simp [withRetryGo, h] at h2 <;> omega
  | succ r ih =>
    intro cur n h1 h2
    cases h : operation (cur + 1) with
    | ok v =>
      exfalso
      simp [withRetryGo, h] at h2
      omega
    | error e =>
      cases hr : (classifyProviderError provider e).retryable with
      | true =>
        simp [withRetryGo, h, hr] at h2
        rcases Nat.lt_or_ge (cur + 1) n with hn | hn
        · exact ih (cur + 1) n hn h2
        · have hn2 : n = cur + 1 := by omega
          subst hn2
          exact ⟨e, h, hr⟩
      | false =>
        exfalso
        simp [withRetryGo, h, hr] at h2
        omega

lemma withRetryGo_fst {T : Type} (operation : Nat → Except JsError T)
    (provider : String) :
    ∀ remaining curAttempt,
      (withRetryGo operation provider remaining curAttempt).1 =
        match operation (withRetryGo operation provider remaining curAttempt).2 with
        | .ok v => .ok v
        | .error e => .error (classifyProviderError provider e) := by
  intro remaining
  induction remaining with
  | zero =>
    intro cur
    cases h : operation (cur + 1) <;> simp [withRetryGo, h]
  | succ r ih =>
    intro cur
    cases h : operation (cur + 1) with
    | ok v => simp [withRetryGo, h]
    | error e =>
      cases hr : (classifyProviderError provider e).retryable with
      | true =>
        simp only [withRetryGo, h, hr, if_true]
        exact ih (cur + 1)
      | false => simp [withRetryGo, h, hr]

/-- C1, counterexample: with `maxRetries = 0` and an operation that always
fails with a retryable error, `withRetry` invokes the operation twice, not
at most `maxRetries + 1 = 1` times: after a failure the code retries while
`attempt <= maxRetries + 1`, so the failing attempt `maxRetries + 1` is
still retried and only attempt `maxRetries + 2` raises. -/
theorem withRetry_claimed_attempt_bound_false :
    ¬ (withRetryAttempts alwaysServerError "p" 0 ≤ 0 + 1) := by decide

/-- C1 (amended): `withRetry` invokes the operation at most
`maxRetries + 2` times in total; every attempt that is followed by a retry
was a failure whose classified error is retryable and whose attempt number
is at most `maxRetries + 1`; and the overall outcome is the outcome of the
final attempt, with a failure raised as its classified `ProviderError`. -/
theorem withRetry_attempt_spec {T : Type} (operation : Nat → Except JsError T)
    (provider : String) (maxRetries : Nat) :
    withRetryAttempts operation provider maxRetries ≤ maxRetries + 2 ∧
    (∀ n, 0 < n → n < withRetryAttempts operation provider maxRetries →
      n ≤ maxRetries + 1 ∧
      ∃ e, operation n = .error e ∧
        (classifyProviderError provider e).retryable = true) ∧
    (withRetry operation provider maxRetries =
      match operation (withRetryAttempts operation provider maxRetries) with
      | .ok v => .ok v
      | .error e => .error (classifyProviderError provider e)) := by
  have hle := withRetryGo_attempts_le operation provider (maxRetries + 1) 0
  refine ⟨by simpa [withRetryAttempts] using hle, ?_, ?_⟩
  · intro n hn1 hn2
    refine ⟨?_, withRetryGo_mid operation provider (maxRetries + 1) 0 n hn1 hn2⟩
    simp only [withRetryAttempts] at hn2
    omega
  · exact withRetryGo_fst operation provider (maxRetries + 1) 0

/-- C1, witness: with `maxRetries = 1` and the always-failing retryable
operation, attempt 1 is followed by a retry and indeed failed retryably
within the budget. -/
theorem withRetry_attempt_spec_witness :
    1 ≤ 1 + 1 ∧
    ∃ e, alwaysServerError 1 = .error e ∧
      (classifyProviderError "p" e).retryable = true :=
  (withRetry_attempt_spec alwaysServerError "p" 1).2.1 1 (by decide) (by decide)

/-- C6: the backoff delay for attempt `n ≥ 1` is the clamped exponential
`min(maxDelay, baseDelay * 2^(n-1))` plus a deterministic 20% jitter (its
floor), it is monotonically non-decreasing in `n`, and it is bounded by
`1.2 * maxDelay` (stated over naturals as `5 * delay ≤ 6 * maxDelay`). -/
theorem computeBackoffMs_spec (n baseDelay maxDelay : Nat) (h : 1 ≤ n) :
    computeBackoffMs n baseDelay maxDelay =
      min maxDelay (baseDelay * 2 ^ (n - 1)) +
        min maxDelay (baseDelay * 2 ^ (n - 1)) / 5 ∧
    computeBackoffMs n baseDelay maxDelay ≤
      computeBackoffMs (n + 1) baseDelay maxDelay ∧
    5 * computeBackoffMs n baseDelay maxDelay ≤ 6 * maxDelay := by
  refine ⟨rfl, ?_, ?_⟩
  · have hp : baseDelay * 2 ^ (n - 1) ≤ baseDelay * 2 ^ (n + 1 - 1) :=
      Nat.mul_le_mul_left _ (Nat.pow_le_pow_right (by norm_num) (by omega))
    simp only [computeBackoffMs]
    omega
  · have h5 : min maxDelay (baseDelay * 2 ^ (n - 1)) / 5 * 5 ≤
        min maxDelay (baseDelay * 2 ^ (n - 1)) := Nat.div_mul_le_self _ _
    simp only [computeBackoffMs]
    omega

/-- C6, witness: attempt 1 with the default delays. -/
theorem computeBackoffMs_spec_witness :
    computeBackoffMs 1 200 2000 =
      min 2000 (200 * 2 ^ (1 - 1)) + min 2000 (200 * 2 ^ (1 - 1)) / 5 ∧
    computeBackoffMs 1 200 2000 ≤ computeBackoffMs (1 + 1) 200 2000 ∧
    5 * computeBackoffMs 1 200 2000 ≤ 6 * 2000 :=
  computeBackoffMs_spec 1 200 2000 (by decide)

/-- C7: the HTTP status classifier maps 401/403 to non-retryable `auth`,
429 to retryable `rate_limit`, any status ≥ 500 to retryable `server`, any
other 4xx to non-retryable `bad_request`, and anything else to
non-retryable `unknown`; in particular 429/500/502/503 are retryable and
400/401/403/404 are not. -/
theorem classifyHttpStatusError_spec (provider : String) (details : Option String)
    (status : Nat) :
    ((status = 401 ∨ status = 403) →
      (classifyHttpStatusError provider status details).code = .auth ∧
      (classifyHttpStatusError provider status details).retryable = false) ∧
    (status = 429 →
      (classifyHttpStatusError provider status details).code = .rate_limit ∧
      (classifyHttpStatusError provider status details).retryable = true) ∧
    (500 ≤ status →
      (classifyHttpStatusError provider status details).code = .server ∧
      (classifyHttpStatusError provider status details).retryable = true) ∧
    (400 ≤ status → status < 500 → status ≠ 401 → status ≠ 403 → status ≠ 429 →
      (classifyHttpStatusError provider status details).code = .bad_request ∧
      (classifyHttpStatusError provider status details).retryable = false) ∧
    (status < 400 →
      (classifyHttpStatusError provider status details).code = .unknown ∧
      (classifyHttpStatusError provider status details).retryable = false) ∧
    ((status = 429 ∨ status = 500 ∨ status = 502 ∨ status = 503) →
      (classifyHttpStatusError provider status details).retryable = true) ∧
    ((status = 400 ∨ status = 401 ∨ status = 403 ∨ status = 404) →
      (classifyHttpStatusError provider status details).retryable = false) := by
  refine ⟨?_, ?_, ?_, ?_, ?_, ?_, ?_⟩
  · rintro (rfl | rfl) <;> exact ⟨rfl, rfl⟩
  · rintro rfl; exact ⟨rfl, rfl⟩
  · intro h
    have h1 : ¬ (status = 401 ∨ status = 403) := by omega
    have h2 : ¬ (status = 429) := by omega
    simp [classifyHttpStatusError, h1, h2, h]
  · intro h4 h5 hne1 hne3 hne9
    have h1 : ¬ (status = 401 ∨ status = 403) := by omega
    have h2 : ¬ (500 ≤ status) := by omega
    simp [classifyHttpStatusError, h1, hne9, h2, h4]
  · intro h
    have h1 : ¬ (status = 401 ∨ status = 403) := by omega
    have h2 : ¬ (status = 429) := by omega
    have h3 : ¬ (500 ≤ status) := by omega
    have h4 : ¬ (400 ≤ status) := by omega
    simp [classifyHttpStatusError, h1, h2, h3, h4]
  · rintro (rfl | rfl | rfl | rfl) <;> rfl
  · rintro (rfl | rfl | rfl | rfl) <;> rfl

/-- C7, witness: status 429 is classified as retryable `rate_limit`. -/
theorem classifyHttpStatusError_spec_witness :
    (classifyHttpStatusError "OpenAI" 429 none).code = .rate_limit ∧
    (classifyHttpStatusError "OpenAI" 429 none).retryable = true :=
  (classifyHttpStatusError_spec "OpenAI" none 429).2.1 rfl

/-- C4, counterexample: `JSON.parse("[1,2]")` yields an array, which is
truthy and of `typeof "object"`, so `safeParseArguments` returns the array
itself rather than an object-shaped mapping. -/
theorem safeParseArguments_object_claim_false :
    ¬ ∃ fields, safeParseArguments "[1,2]" = Json.obj fields := by
  rintro ⟨fields, h⟩
  rw [show safeParseArguments "[1,2]" = Json.arr [Json.num 1, Json.num 2] from rfl] at h
  exact Json.noConfusion h

/-- C4 (amended): `safeParseArguments` is total (the embedding returns a
value for every input string, modelling that the `try`/`catch` never lets
an exception escape); it returns the parsed value exactly when that value
is truthy and of object type (which includes arrays), and the empty mapping
on any parse failure and on any parsed value that is `null` or a primitive;
consequently the result is never `null` and is always an object or an
array. -/
theorem safeParseArguments_spec (s : String) :
    safeParseArguments s =
      (match jsonParse s with
       | some v => if v.truthy ∧ v.typeofObject then v else Json.obj []
       | none => Json.obj []) ∧
    safeParseArguments s ≠ Json.null ∧
    ((∃ fields, safeParseArguments s = Json.obj fields) ∨
      (∃ items, safeParseArguments s = Json.arr items)) := by
  have eqNone : jsonParse s = none → safeParseArguments s = Json.obj [] := by
    intro hp
    unfold safeParseArguments
    rw [hp]
  have eqSome : ∀ v, jsonParse s = some v →
      safeParseArguments s = if v.truthy ∧ v.typeofObject then v else Json.obj [] := by
    intro v hp
    unfold safeParseArguments
    rw [hp]
  refine ⟨rfl, ?_, ?_⟩
  · cases hp : jsonParse s with
    | none => simp [eqNone hp]
    | some v =>
      rw [eqSome v hp]
      by_cases hv : v.truthy ∧ v.typeofObject
      · rw [if_pos hv]
        intro hn
        subst hn
        simp [Json.truthy] at hv
      · rw [if_neg hv]
        simp
  · cases hp : jsonParse s with
    | none => exact Or.inl ⟨[], eqNone hp⟩
    | some v =>
      rw [eqSome v hp]
      by_cases hv : v.truthy ∧ v.typeofObject
      · rw [if_pos hv]
        cases v with
        | arr items => exact Or.inr ⟨items, rfl⟩
        | obj fields => exact Or.inl ⟨fields, rfl⟩
        | null => simp [Json.truthy] at hv
        | bool b => simp [Json.typeofObject] at hv
        | num n => simp [Json.typeofObject] at hv
        | str s2 => simp [Json.typeofObject] at hv
      · rw [if_neg hv]
        exact Or.inl ⟨[], rfl⟩

/-- C5, counterexample: for the content-part sequence `[{}]` every part
yields nothing, yet `normalizeContent` returns the JSON serialization
`"[{}]"` of the whole array — neither `null` nor the empty concatenation
of the (dropped) parts. -/
theorem normalizeContent_empty_parts_claim_false :
    normalizeContent (Json.arr [Json.obj []]) = some "[\x7b\x7d]" ∧
    normalizeContent (Json.arr [Json.obj []]) ≠ none ∧
    normalizeContent (Json.arr [Json.obj []]) ≠ some "" :=
  ⟨rfl, by decide, by decide⟩

/-- C5 (amended): `normalizeContent` returns plain strings unchanged; for a
sequence of parts it returns the concatenation (no separator) of the
recursively extracted texts with empty and unextractable parts dropped
whenever at least one part yields text, and the JSON serialization of the
whole sequence (never `null`) when every part yields nothing; for an
object exposing a string `text` field (else a string `content` field) it
returns that field, and other objects fall back to their JSON
serialization; `null` maps to `null`; numbers and booleans map to their
string coercion. -/
theorem normalizeContent_spec :
    (∀ s, normalizeContent (Json.str s) = some s) ∧
    (∀ parts, extractTextParts parts =
      ((parts.map extractText).reduceOption).filter (fun s => s ≠ "")) ∧
    (∀ parts, extractTextParts parts ≠ [] →
      normalizeContent (Json.arr parts) = some (String.join (extractTextParts parts))) ∧
    (∀ parts, extractTextParts parts = [] →
      normalizeContent (Json.arr parts) = some (stringify (Json.arr parts))) ∧
    (∀ fields t, lookupStringField fields "text" = some t →
      normalizeContent (Json.obj fields) = some t) ∧
    (∀ fields t, lookupStringField fields "text" = none →
      lookupStringField fields "content" = some t →
      normalizeContent (Json.obj fields) = some t) ∧
    (∀ fields, lookupStringField fields "text" = none →
      lookupStringField fields "content" = none →
      normalizeContent (Json.obj fields) = some (stringify (Json.obj fields))) ∧
    normalizeContent Json.null = none ∧
    (∀ n, normalizeContent (Json.num n) = some (toString n)) ∧
    (∀ b, normalizeContent (Json.bool b) = some (if b then "true" else "false")) := by
  refine ⟨fun s => rfl, ?_, ?_, ?_, ?_, ?_, ?_, rfl, fun n => rfl, fun b => rfl⟩
  · intro parts
    induction parts with
    | nil => rfl
    | cons p rest ih =>
      cases hp : extractText p with
      | none => simp [extractTextParts, hp, ih, List.reduceOption]
      | some s =>
        by_cases hs : s = ""
        · subst hs
          simp [extractTextParts, hp, ih, List.reduceOption]
        · simp [extractTextParts, hp, hs, ih, List.reduceOption]
  · intro parts h
    have hne : (extractTextParts parts).isEmpty = false := by
      cases hxs : extractTextParts parts with
      | nil => exact absurd hxs h
      | cons a as => rfl
    simp [normalizeContent, extractText, hne]
  · intro parts h
    simp [normalizeContent, extractText, h]
  · intro fields t h
    simp [normalizeContent, extractText, h]
  · intro fields t h1 h2
    simp [normalizeContent, extractText, h1, h2]
  · intro fields h1 h2
    simp [normalizeContent, extractText, h1, h2]

/-- C5, witness: the amended array clauses applied to the concrete part
lists `["a", "", {"x":1}]` (one extractable part) and `[{}]` (no
extractable part). -/
theorem normalizeContent_spec_witness :
    normalizeContent (Json.arr [Json.str "a", Json.str "", Json.obj [("x", Json.num 1)]]) =
      some (String.join (extractTextParts
        [Json.str "a", Json.str "", Json.obj [("x", Json.num 1)]])) ∧
    normalizeContent (Json.arr [Json.obj []]) =
      some (stringify (Json.arr [Json.obj []])) :=
  ⟨normalizeContent_spec.2.2.1
      [Json.str "a", Json.str "", Json.obj [("x", Json.num 1)]] (by decide),
    normalizeContent_spec.2.2.2.1 [Json.obj []] (by decide)⟩

lemma mapGet?_mapSet_self (m : List (Nat × ToolCallState)) (k : Nat) (v : ToolCallState) :
    mapGet? (mapSet m k v) k = some v := by
  induction m with
  | nil => simp [mapSet, mapGet?]
  | cons p rest ih =>
    by_cases hk : p.1 = k
    · simp [mapSet, hk, mapGet?]
    · simp [mapSet, hk, mapGet?, ih]

/-- C3: tool-call deltas sharing an index are merged additively — a truthy
incoming id or name overwrites the stored one, an incoming argument
fragment is appended to (never replaces) the stored argument string — and
the assembled argument string is parsed by `safeParseArguments` only at
end-of-stream assembly; in the concrete id/name/two-fragments scenario the
final call carries the concatenation of both fragments parsed as one JSON
object. -/
theorem stream_toolcall_assembly :
    (∀ state d a, d.fnArgs = some a → a ≠ "" →
      ∃ e, mapGet? (applyToolCallDelta state d) d.index = some e ∧
        e.args = (match mapGet? state d.index with
          | some old => old.args
          | none => "") ++ a) ∧
    (∀ state d i, d.id = some i → i ≠ "" →
      ∃ e, mapGet? (applyToolCallDelta state d) d.index = some e ∧ e.id = i) ∧
    (∀ state d n, d.fnName = some n → n ≠ "" →
      ∃ e, mapGet? (applyToolCallDelta state d) d.index = some e ∧ e.name = n) ∧
    (∀ state, finalizeToolCalls state = state.map
      (fun p => { id := p.2.id, name := p.2.name,
                  arguments := safeParseArguments p.2.args })) ∧
    processToolCallDeltas scenarioDeltas =
      [(0, { id := "call_1", name := "get_weather",
             args := "\x7b\"city\":" ++ "\"Paris\"\x7d" })] ∧
    finalizeToolCalls (processToolCallDeltas scenarioDeltas) =
      [{ id := "call_1", name := "get_weather",
         arguments := Json.obj [("city", Json.str "Paris")] }] := by
  refine ⟨?_, ?_, ?_, fun state => rfl, rfl, rfl⟩
  · intro state d a ha hne
    unfold applyToolCallDelta
    rw [ha]
    refine ⟨_, mapGet?_mapSet_self _ _ _, ?_⟩
    cases hid : d.id <;> cases hn : d.fnName <;>
      cases hold : mapGet? state d.index <;>
      simp [hne] <;> split_ifs <;> simp
  · intro state d i hi hne
    unfold applyToolCallDelta
    rw [hi]
    refine ⟨_, mapGet?_mapSet_self _ _ _, ?_⟩
    cases ha : d.fnArgs <;> cases hn : d.fnName <;>
      cases hold : mapGet? state d.index <;>
      simp [hne] <;> split_ifs <;> simp
  · intro state d n hn hne
    unfold applyToolCallDelta
    rw [hn]
    refine ⟨_, mapGet?_mapSet_self _ _ _, ?_⟩
    cases ha : d.fnArgs <;> cases hid : d.id <;>
      cases hold : mapGet? state d.index <;>
      simp [hne] <;> split_ifs <;> simp

/-- C3, witness: an argument fragment delivered for a fresh index is
appended to the (empty) stored arguments. -/
theorem stream_toolcall_assembly_witness :
    ∃ e, mapGet? (applyToolCallDelta [] { index := 0, fnArgs := some "x" }) 0 = some e ∧
      e.args = (match mapGet? ([] : List (Nat × ToolCallState)) 0 with
        | some old => old.args
        | none => "") ++ "x" :=
  stream_toolcall_assembly.1 [] { index := 0, fnArgs := some "x" } "x" rfl (by decide)

lemma runToolCalls_ok (execute : String → Json → Except String String)
    (hexec : ∀ nm args, ∃ r, execute nm args = .ok r) :
    ∀ tcs, ∃ ms, runToolCalls execute tcs = .ok ms := by
  intro tcs
  induction tcs with
  | nil => exact ⟨[], rfl⟩
  | cons tc rest ih =>
    obtain ⟨r, hr⟩ := hexec tc.name tc.arguments
    obtain ⟨ms, hms⟩ := ih
    exact ⟨toolMsg tc r :: ms, by simp [runToolCalls, hr, hms, Except.map]⟩

lemma runOnceGo_calls_le (chat : Nat → List ChatMsg → LLMResponse)
    (execute : String → Json → Except String String) :
    ∀ r msgs calls, (runOnceGo chat execute r msgs calls).2 ≤ calls + r := by
  intro r
  induction r with
  | zero => intro msgs calls; simp [runOnceGo]
  | succ n ih =>
    intro msgs calls
    cases htc : (chat calls msgs).toolCalls with
    | none => simp [runOnceGo, htc]
    | some tcs =>
      by_cases he : tcs.isEmpty
      · simp [runOnceGo, htc, he]
      · cases hrun : runToolCalls execute tcs with
        | ok tms =>
          have h2 := ih (msgs ++ assistantToolMsg (chat calls msgs).content tcs :: tms)
            (calls + 1)
          simp [runOnceGo, htc, he, hrun]
          omega
        | error e => simp [runOnceGo, htc, he, hrun]

lemma runOnceGo_exhaust (chat : Nat → List ChatMsg → LLMResponse)
    (execute : String → Json → Except String String)
    (hchat : ∀ i msgs, ∃ tcs, (chat i msgs).toolCalls = some tcs ∧ tcs ≠ [])
    (hexec : ∀ nm args, ∃ r, execute nm args = .ok r) :
    ∀ r msgs calls, runOnceGo chat execute r msgs calls = (.ok none, calls + r) := by
  intro r
  induction r with
  | zero => intro msgs calls; simp [runOnceGo]
  | succ n ih =>
    intro msgs calls
    obtain ⟨tcs, htc, hne⟩ := hchat calls msgs
    have hrempty : tcs.isEmpty = false := by
      cases tcs with
      | nil => exact absurd rfl hne
      | cons a as => rfl
    obtain ⟨tms, hrun⟩ := runToolCalls_ok execute hexec tcs
    rw [show calls + (n + 1) = (calls + 1) + n by omega]
    simp [runOnceGo, htc, hrempty, hrun, ih]

/-- C2: `runOnce` performs at most `maxIterations = 4` provider `chat`
calls (and, being a total function of the modelled inputs, terminates);
and when every response carries tool calls (and tool execution succeeds,
so no exception cuts the turn short), the loop exits after exactly
`maxIterations` calls and `runOnce` returns the empty string. -/
theorem runOnce_iteration_bound (chat : Nat → List ChatMsg → LLMResponse)
    (execute : String → Json → Except String String)
    (store : Store) (session : Session) (userContent : String) :
    runOnceCalls chat execute session userContent ≤ maxIterations ∧
    ((∀ i msgs, ∃ tcs, (chat i msgs).toolCalls = some tcs ∧ tcs ≠ []) →
      (∀ nm args, ∃ r, execute nm args = .ok r) →
      runOnceCalls chat execute session userContent = maxIterations ∧
      ∃ s2 st2, runOnce chat execute store session userContent = .ok ("", s2, st2)) := by
  constructor
  · have h := runOnceGo_calls_le chat execute maxIterations
      (initialMessages session userContent) 0
    simpa [runOnceCalls] using h
  · intro hchat hexec
    have hgo := runOnceGo_exhaust chat execute hchat hexec maxIterations
      (initialMessages session userContent) 0
    refine ⟨by simp [runOnceCalls, hgo], ?_⟩
    refine ⟨(saveSession store ((session.addMessage "user" (some userContent)).addMessage
        "assistant" (some ""))).2,
      (saveSession store ((session.addMessage "user" (some userContent)).addMessage
        "assistant" (some ""))).1, ?_⟩
    simp [runOnce, hgo]

/-- C2, witness: with a provider that always returns tool calls, exactly 4
provider calls happen and `runOnce` returns `""`. -/
theorem runOnce_iteration_bound_witness :
    runOnceCalls loopingChat okExec demoSession "go" = maxIterations ∧
    ∃ s2 st2, runOnce loopingChat okExec demoStore demoSession "go" = .ok ("", s2, st2) :=
  (runOnce_iteration_bound loopingChat okExec demoStore demoSession "go").2
    (fun _ _ => ⟨[{ id := "t1", name := "noop", arguments := Json.obj [] }], rfl, by simp⟩)
    (fun _ _ => ⟨"", rfl⟩)

/-- Saving a session that was up to date and then received exactly two
`addMessage` calls appends exactly those two messages to the session's own
file and leaves every other file unchanged. -/
lemma saveSession_after_turn (store : Store) (s : Session) (c1 c2 : Option String)
    (r1 r2 : String) (hsaved : s.lastSavedIndex = s.messages.length) :
    (saveSession store ((s.addMessage r1 c1).addMessage r2 c2)).2.messages =
        s.messages ++ [{ role := r1, content := c1 }, { role := r2, content := c2 }] ∧
    (saveSession store ((s.addMessage r1 c1).addMessage r2 c2)).2.lastSavedIndex =
        (saveSession store ((s.addMessage r1 c1).addMessage r2 c2)).2.messages.length ∧
    (saveSession store ((s.addMessage r1 c1).addMessage r2 c2)).1 s.key =
        store s.key ++ [{ role := r1, content := c1 }, { role := r2, content := c2 }] ∧
    ∀ k, k ≠ s.key → (saveSession store ((s.addMessage r1 c1).addMessage r2 c2)).1 k = store k := by
  have hunsaved : ((s.addMessage r1 c1).addMessage r2 c2).getUnsavedMessages =
      [{ role := r1, content := c1 }, { role := r2, content := c2 }] := by
    simp only [Session.addMessage, Session.getUnsavedMessages]
    rw [List.append_assoc, hsaved]
    exact List.drop_left _ _
  simp only [saveSession, hunsaved]
  refine ⟨?_, ?_, ?_, ?_⟩
  · simp [Session.markSaved, Session.addMessage]
  · simp [Session.markSaved, Session.addMessage]
  · simp [Session.addMessage]
  · intro k hk
    simp [Session.addMessage, hk]

/-- C10: a `runOnce` invocation that completes without an exception adds
exactly two messages to the session — the user message followed by one
assistant message carrying the returned final content — and persists
exactly those two to the session's file, leaving every other key's file
unchanged; none of the intermediate assistant tool-call or tool-role
messages built during the loop reach the session. -/
theorem runOnce_session_persistence (chat : Nat → List ChatMsg → LLMResponse)
    (execute : String → Json → Except String String)
    (store : Store) (session : Session) (userContent : String)
    (hsaved : session.lastSavedIndex = session.messages.length) :
    ∀ result s2 st2,
      runOnce chat execute store session userContent = .ok (result, s2, st2) →
      s2.messages = session.messages ++
        [{ role := "user", content := some userContent },
         { role := "assistant", content := some result }] ∧
      s2.lastSavedIndex = s2.messages.length ∧
      st2 session.key = store session.key ++
        [{ role := "user", content := some userContent },
         { role := "assistant", content := some result }] ∧
      (∀ k, k ≠ session.key → st2 k = store k) := by
  intro result s2 st2 h
  cases hgo : (runOnceGo chat execute maxIterations (initialMessages session userContent) 0).1 with
  | error e => simp [runOnce, hgo] at h
  | ok fc =>
    simp only [runOnce, hgo] at h
    have hcomp : fc.getD "" = result ∧
        (saveSession store ((session.addMessage "user" (some userContent)).addMessage
          "assistant" (some (fc.getD "")))).2 = s2 ∧
        (saveSession store ((session.addMessage "user" (some userContent)).addMessage
          "assistant" (some (fc.getD "")))).1 = st2 := by
      simpa using h
    obtain ⟨h1, h2, h3⟩ := hcomp
    subst h1 h2 h3
    exact saveSession_after_turn store session (some userContent) (some (fc.getD ""))
      "user" "assistant" hsaved

/-- C10, witness: the no-tool-call scenario adds and persists exactly the
user and assistant messages. -/
theorem runOnce_session_persistence_witness :
    ∃ result s2 st2,
      runOnce helloChat okExec demoStore demoSession "hi" = .ok (result, s2, st2) ∧
      s2.messages = demoSession.messages ++
        [{ role := "user", content := some "hi" },
         { role := "assistant", content := some result }] ∧
      st2 demoSession.key = demoStore demoSession.key ++
        [{ role := "user", content := some "hi" },
         { role := "assistant", content := some result }] := by
  refine ⟨_, _, _, rfl, ?_, ?_⟩
  · exact (runOnce_session_persistence helloChat okExec demoStore demoSession "hi"
      rfl _ _ _ rfl).1
  · exact (runOnce_session_persistence helloChat okExec demoStore demoSession "hi"
      rfl _ _ _ rfl).2.2.1

/-- C8: if executing a tool call throws in `runOnceStream`, the exception
propagates and ends the turn: the invocation's outcome is that error and
the session and the persistent store are returned unchanged (nothing is
persisted); and within the failing batch, the appended tool-role messages
and `tool_result` events are exactly those of the successfully executed
prefix — no tool-role message is appended for the failing call, the
emitted events end with its `tool_error`, and no tool call after it
contributes anything. -/
theorem runOnceStream_tool_failure_aborts :
    (∀ stream execute (store : Store) (session : Session) userContent e,
      (runOnceStream stream execute store session userContent).outcome = .error e →
      (runOnceStream stream execute store session userContent).session = session ∧
      (runOnceStream stream execute store session userContent).store = store) ∧
    (∀ (execute : String → Json → Except String String) pfx tc rest e,
      (∀ t ∈ pfx, ∃ r, execute t.name t.arguments = .ok r) →
      execute tc.name tc.arguments = .error e →
      execBatchStream execute (pfx ++ tc :: rest) =
        (pfx.map (fun t => toolMsg t (okResult execute t)),
         pfx.map (fun t => AgentEvent.tool_result t.name (okResult execute t)) ++
           [AgentEvent.tool_error tc.name e],
         some e)) := by
  constructor
  · intro stream execute store session userContent e h
    cases hout : (runOnceStreamGo stream execute maxIterations
        (initialMessages session userContent) 0 []).outcome with
    | ok fc =>
      exfalso
      simp [runOnceStream, hout] at h
    | error e2 =>
      simp [runOnceStream, hout] at h ⊢
  · intro execute pfx tc rest e hok hfail
    induction pfx with
    | nil => simp [execBatchStream, hfail]
    | cons t ts ih =>
      obtain ⟨r, hr⟩ := hok t (by simp)
      have ih2 := ih (fun t2 ht2 => hok t2 (by simp [ht2]))
      simp [execBatchStream, hr, ih2, okResult]

/-- C8, witness: in the concrete failing turn the session and store come
back unchanged, and the failing batch produces exactly the prefix tool
message plus the `tool_error` event. -/
theorem runOnceStream_tool_failure_aborts_witness :
    ((runOnceStream failingStream failExec demoStore demoSession "hi").session = demoSession ∧
      (runOnceStream failingStream failExec demoStore demoSession "hi").store = demoStore) ∧
    execBatchStream failExec ([goodCall] ++ badCall :: [neverCall]) =
      ([goodCall].map (fun t => toolMsg t (okResult failExec t)),
       [goodCall].map (fun t => AgentEvent.tool_result t.name (okResult failExec t)) ++
         [AgentEvent.tool_error badCall.name "boom"],
       some "boom") :=
  ⟨runOnceStream_tool_failure_aborts.1 failingStream failExec demoStore demoSession
      "hi" "boom" rfl,
    runOnceStream_tool_failure_aborts.2 failExec [goodCall] badCall [neverCall] "boom"
      (fun t ht => ⟨"fine", by
        have : t = goodCall := by simpa using ht
        subst this
        rfl⟩)
      rfl⟩

lemma mapMessagesStep_eq (acc : List String × List AnthropicMessage) (m : ChatMsg) :
    mapMessagesStep acc m =
      (acc.1 ++ (systemPart m).toList, acc.2 ++ (mapMessagesOne m).toList) := by
  by_cases h1 : m.role = "system"
  · simp only [mapMessagesStep, systemPart, mapMessagesOne, h1, if_true]
    cases hn : normalizeContent m.content with
    | none => simp
    | some t =>
      by_cases ht : t = ""
      · simp [ht]
      · simp [ht]
  · by_cases h2 : m.role = "tool"
    · simp [mapMessagesStep, systemPart, mapMessagesOne, h1, h2]
    · by_cases h3 : m.role = "assistant"
      · by_cases h4 : (mapOpenAIToolCalls m.tool_calls).isEmpty
        · simp [mapMessagesStep, systemPart, mapMessagesOne, h1, h2, h3, h4]
        · simp [mapMessagesStep, systemPart, mapMessagesOne, h1, h2, h3, h4]
      · by_cases h5 : m.role = "user"
        · simp [mapMessagesStep, systemPart, mapMessagesOne, h1, h2, h3, h5]
        · simp [mapMessagesStep, systemPart, mapMessagesOne, h1, h2, h3, h5]

lemma mapMessages_foldl :
    ∀ (msgs : List ChatMsg) (sp : List String) (out : List AnthropicMessage),
      msgs.foldl mapMessagesStep (sp, out) =
        (sp ++ msgs.filterMap systemPart, out ++ msgs.filterMap mapMessagesOne) := by
  intro msgs
  induction msgs with
  | nil => intro sp out; simp
  | cons m rest ih =>
    intro sp out
    rw [List.foldl_cons, mapMessagesStep_eq, ih]
    cases hs : systemPart m <;> cases ho : mapMessagesOne m <;>
      simp [List.filterMap_cons, hs, ho]

lemma mapMessagesOne_role (msg : ChatMsg) (am : AnthropicMessage)
    (h : mapMessagesOne msg = some am) :
    am.role = "user" ∨ am.role = "assistant" := by
  unfold mapMessagesOne at h
  split_ifs at h
  all_goals first
    | exact Option.noConfusion h
    | (injection h with h2; rw [← h2]; simp)

/-- C9: `mapMessages` emits only user- and assistant-role vendor messages;
the output list is the per-message translation with every system-role
message removed (its truthy normalized content going instead to the single
top-level `system` field, joined with blank lines); and every tool-role
input message with a nonempty `tool_call_id` becomes a user-role message
whose content is the single `tool_result` block referencing that id. -/
theorem mapMessages_spec (messages : List ChatMsg) :
    (∀ m ∈ (mapMessages messages).2, m.role = "user" ∨ m.role = "assistant") ∧
    (mapMessages messages).2 = messages.filterMap mapMessagesOne ∧
    (∀ msg : ChatMsg, msg.role = "system" → mapMessagesOne msg = none) ∧
    (mapMessages messages).1 =
      (if (messages.filterMap systemPart).isEmpty then none
       else some (String.intercalate "\n\n" (messages.filterMap systemPart))) ∧
    (∀ (msg : ChatMsg) (tid : String), msg.role = "tool" →
      msg.tool_call_id = some tid → tid ≠ "" →
      mapMessagesOne msg = some ⟨"user",
        .blocks [.tool_result tid ((normalizeContent msg.content).getD "")]⟩) := by
  have hfold := mapMessages_foldl messages [] []
  refine ⟨?_, ?_, ?_, ?_, ?_⟩
  · intro m hm
    have hout : (mapMessages messages).2 = messages.filterMap mapMessagesOne := by
      simp [mapMessages, hfold]
    rw [hout] at hm
    obtain ⟨msg, _, hmsg⟩ := List.mem_filterMap.mp hm
    exact mapMessagesOne_role msg m hmsg
  · simp [mapMessages, hfold]
  · intro msg hrole
    simp [mapMessagesOne, hrole]
  · simp [mapMessages, hfold]
  · intro msg tid hrole htid hne
    simp [mapMessagesOne, hrole, htid, hne]

/-- C9, witness: the concrete tool message is encoded as a user-role
message holding one `tool_result` block referencing `call_9`. -/
theorem mapMessages_spec_witness :
    mapMessagesOne toolInputMsg = some ⟨"user",
      .blocks [.tool_result "call_9" ((normalizeContent toolInputMsg.content).getD "")]⟩ :=
  (mapMessages_spec [toolInputMsg]).2.2.2.2 toolInputMsg "call_9" rfl rfl (by decide)
